import Mathlib

/-!
# Verification of the Painting-Recreation tree sketch

Shallow embedding of the generative-forest sketch
(`src/packages/app/src/index.ts`): the recursive `Segment` tree generator,
the per-frame tree-list update (scroll + offscreen culling), and the pure
arithmetic of the renderer (growth lerp, gradient color stops, leaf fall).

Conventions of the embedding:
* All numbers are `ℚ`.  Canvas coordinates: `y` grows downward, so the
  library constant `Vector.UP` is `(0, -1)` and ground level is `y = 0`.
* The global random source (`Math.random`, `randRange`, `randChoice`) is
  modelled by explicit draw records.  A recursive generation run receives a
  function `List ℕ → NodeDraw` assigning the draws consumed at every node,
  indexed by the node's path (child `i` of path `p` has path `i :: p`).
  Values the source derives with trigonometry or real roots
  (`setAngle`/`getAngle`/`lerp` of unit directions, `x ** 0.5`,
  `x ** 0.25`) are irrational and carried as abstract draw fields
  (`dir`, `segAngle`, `branchT`, `extraWidth`); no claim depends on their
  numeric values.  Likewise the falling leaf's sinusoidal wobble profile
  `u ↦ sin(scale * leafSidewaysFallSpeed * goldenRatio * u)` is carried as
  an abstract function `wave : ℚ → ℚ` together with the properties the sine
  has (`wave 0 = 0`, bounded by `1`, Lipschitz with the rate
  `scale * leafSidewaysFallSpeed * goldenRatio`).
* The two unbounded loops of the source (the leaf-placement `while` loop
  and the branch recursion) take explicit fuel and return `none` when the
  fuel runs out, and `none` also models the one reachable runtime error of
  the source (`new Array(n)` with `n < 0`); termination and totality are
  then theorems about sufficient fuel.
-/

namespace Painting

/-- Two-dimensional vector over `ℚ`, embedding the `Vector<2>` values of the
sketch. -/
@[ext]
structure Vec2 where
  x : ℚ
  y : ℚ
deriving DecidableEq

namespace Vec2

def add (a b : Vec2) : Vec2 := ⟨a.x + b.x, a.y + b.y⟩

def sub (a b : Vec2) : Vec2 := ⟨a.x - b.x, a.y - b.y⟩

def smul (c : ℚ) (a : Vec2) : Vec2 := ⟨c * a.x, c * a.y⟩

/-- Linear interpolation from `a` toward `b` (the vector library's `lerp`). -/
def lerp (a b : Vec2) (t : ℚ) : Vec2 := ⟨a.x + (b.x - a.x) * t, a.y + (b.y - a.y) * t⟩

/-- Squared euclidean length, used to compare drawn stroke lengths without
leaving `ℚ`. -/
def normSq (a : Vec2) : ℚ := a.x ^ 2 + a.y ^ 2

def UP : Vec2 := ⟨0, -1⟩

def DOWN : Vec2 := ⟨0, 1⟩

def LEFT : Vec2 := ⟨-1, 0⟩

def RIGHT : Vec2 := ⟨1, 0⟩

def zero : Vec2 := ⟨0, 0⟩

end Vec2

/-! ## Tuned constants of `index.ts` -/

def viewShiftSpeed : ℚ := 3 / 100

def branchChance : ℚ := 1 / 10

def maxBranches : ℕ := 2

def maxGrowth : ℚ := 1

def growthPerSecond : ℚ := 1 / 25

def minSegmentLength : ℚ := 3 / 50

def maxSegmentLength : ℚ := 3 / 25

def minAge : ℚ := 1 / 50

def maxAgeConst : ℚ := 1 / 25

def treeSpacingMultiplier : ℚ := 1 / 4

def colorSize : ℚ := 3 / 100

def treePalette : List String :=
  ["97729B", "99A39A", "4D917F", "F9EFF7", "D9D4CE", "CCC3B4", "B3B69B"]

def minRadiusMultiplier : ℚ := 3 / 500

def maxRadiusMultiplier : ℚ := 1 / 25

def minLeafDistFromEnd : ℚ := 1 / 10

def maxLeafDistFromEnd : ℚ := 1 / 4

def leafSpacingMin : ℚ := 1 / 100

def leafSpacingMax : ℚ := 3 / 100

def leafFallSpeed : ℚ := 2

def leafSidewaysFallSpeed : ℚ := 1 / 50

def leafSidewaysFallOffset : ℚ := 3 / 100

def leafMaxDownVelOffset : ℚ := 1 / 100

def leafWidthMultiplier : ℚ := 1 / 100

def leafLengthMultiplier : ℚ := 1 / 100

def leafPalette : List String :=
  ["A97921", "ECDB8A", "BEB662", "ECE5C8", "CDD0BD", "B0924A"]

/-! ## Data model -/

/-- A leaf attached to a segment (interface `Leaf` of `index.ts`). -/
structure Leaf where
  color : String
  segmentPercent : ℚ
  angle : ℚ
  pos : Vec2
  distFromEnd : ℚ
deriving DecidableEq

/-- A branch segment (interface `Segment` of `index.ts`).  `children` is
`none` when the source object lacks the optional `children` field. -/
inductive Segment : Type where
  | mk : Vec2 → Vec2 → ℚ → ℚ → List (ℚ × String) → ℚ → Option (List Segment) →
      List Leaf → Segment

@[simp]
def Segment.start : Segment → Vec2
  | .mk s _ _ _ _ _ _ _ => s

@[simp]
def Segment.end_ : Segment → Vec2
  | .mk _ e _ _ _ _ _ _ => e

@[simp]
def Segment.length : Segment → ℚ
  | .mk _ _ l _ _ _ _ _ => l

@[simp]
def Segment.maxLeafDist : Segment → ℚ
  | .mk _ _ _ m _ _ _ _ => m

@[simp]
def Segment.colorStops : Segment → List (ℚ × String)
  | .mk _ _ _ _ c _ _ _ => c

@[simp]
def Segment.widthMultiplier : Segment → ℚ
  | .mk _ _ _ _ _ w _ _ => w

@[simp]
def Segment.children : Segment → Option (List Segment)
  | .mk _ _ _ _ _ _ c _ => c

@[simp]
def Segment.leaves : Segment → List Leaf
  | .mk _ _ _ _ _ _ _ l => l

/-- A scrolling tree (interface `Tree` of `index.ts`). -/
structure Tree where
  created : ℚ
  xPercent : ℚ
  maxAge : ℚ
  root : Segment
  minX : ℚ
  maxX : ℚ

/-- Return value of `createSegmentsRecursive`. -/
structure GenResult where
  segment : Segment
  minX : ℚ
  maxX : ℚ

/-! ## Random draws -/

/-- Model of `randChoice` from `@web-art/core`: pick an element of a list, `undefined`
(here `none`) exactly when the list is empty.  The random index is supplied
explicitly. -/
def randChoice (l : List String) (i : ℕ) : Option String :=
  l[i % l.length]?

/-- JavaScript `Math.sign`. -/
def jsSign (q : ℚ) : ℚ :=
  if q < 0 then -1 else if 0 < q then 1 else 0

/-- Draws consumed by one iteration of the leaf-placement loop. -/
structure LeafDraw where
  colorIdx : ℕ
  spacing : ℚ
  distFromEnd : ℚ
  signSrc : ℚ
  angle : ℚ

/-- Draws consumed by one generated segment.  `dir` abstracts the sampled
unit direction (angle perturbation, `lerp` toward the preferred direction,
`setMagnitude`); `segAngle` abstracts `getAngle(end - start)`; `branchT`
abstracts `Math.random() ** 0.25`; `extraWidth` abstracts
`(widthMultiplier * 0.3) ** 0.5`. -/
structure NodeDraw where
  len : ℚ
  dir : Vec2
  segAngle : ℚ
  stopColorIdx : ℕ → ℕ
  leaf : ℕ → LeafDraw
  branchSrc : ℕ → ℚ
  branchT : ℕ → ℚ
  extraWidth : ℚ

/-! ## Generator (`createSegment`, `createSegmentsRecursive`, `createTree`) -/

/-- The `while` loop of `createSegment` placing leaves along the new
segment, with explicit fuel (`none` = fuel exhausted before the loop's own
exit condition). -/
def makeLeavesP (leafPal : List String) (d : NodeDraw) (length : ℚ) (start e : Vec2)
    (segmentAngle : ℚ) : ℕ → ℚ → ℕ → Option (List Leaf)
  | 0, lastLeafOffset, _ =>
    if length > lastLeafOffset + (leafSpacingMin + leafSpacingMax) / 2 then none
    else some []
  | fuel + 1, lastLeafOffset, k =>
    if length > lastLeafOffset + (leafSpacingMin + leafSpacingMax) / 2 then
      let ld := d.leaf k
      let segmentOffset := min (lastLeafOffset + ld.spacing) length
      let lf : Leaf :=
        ⟨(randChoice leafPal ld.colorIdx).getD "brown",
          segmentOffset / length,
          segmentAngle + jsSign (ld.signSrc - 1 / 2) * ld.angle,
          start.lerp e (segmentOffset / length),
          ld.distFromEnd⟩
      (makeLeavesP leafPal d length start e segmentAngle fuel segmentOffset (k + 1)).map
        fun rest => lf :: rest
    else some []

/-- Continuation offset for the color stops: `parent.length * (1 - p)` for
the parent's last stop position `p`, `0` when the parent has no stops. -/
def contOffset (parent : Segment) : ℚ :=
  match parent.colorStops.getLast? with
  | some st => parent.length * (1 - st.1)
  | none => 0

/-- Initial `lastLeafOffset` of the leaf loop, derived from the parent's
last leaf (`Option.some(...).map(...).getOrElse(() => 0)`). -/
def leafOff0 (parent : Segment) : ℚ :=
  match parent.leaves.getLast? with
  | some lf => (lf.segmentPercent - 1) * parent.length
  | none => 0

/-- The stop count `Math.ceil((length - colorStopOffset) / colorSize)`. -/
def stopCountZ (d : NodeDraw) (parent : Segment) : ℤ :=
  Int.ceil ((d.len - contOffset parent) / colorSize)

/-- The color stops assigned to the new segment: an evenly spaced run
starting at the continuation offset, positions expressed as fractions of
the new length. -/
def stopsList (treePal : List String) (d : NodeDraw) (parent : Segment) :
    List (ℚ × String) :=
  (List.range (stopCountZ d parent).toNat).map fun (i : ℕ) =>
    (((i : ℚ) * colorSize + contOffset parent) / d.len,
      (randChoice treePal (d.stopColorIdx i)).getD "white")

/-- Function `createSegment` of `index.ts`, parametrised by the two palettes.
Returns `none` when the leaf loop runs out of fuel, or when the stop count
is negative (in which case the source's `new Array` would throw a
`RangeError`). -/
def createSegmentP (treePal leafPal : List String) (d : NodeDraw) (leafFuel : ℕ)
    (parent : Segment) (preferredDir : Vec2) (widthMultiplier : ℚ) : Option Segment :=
  match makeLeavesP leafPal d d.len parent.end_
      (parent.end_.add (Vec2.smul d.len d.dir)) d.segAngle leafFuel (leafOff0 parent) 0 with
  | none => none
  | some leaves =>
    if stopCountZ d parent < 0 then none
    else
      some (Segment.mk parent.end_ (parent.end_.add (Vec2.smul d.len d.dir)) d.len d.len
        (stopsList treePal d parent) widthMultiplier none leaves)

/-- Collect a list of optional results, `none` when any element is `none`
(the recursive generation fails when any child generation fails). -/
def allSome {α : Type} : List (Option α) → Option (List α)
  | [] => some []
  | o :: rest => o.bind fun a => (allSome rest).map fun l => a :: l

/-- Number of extra branches: one per slot `i < maxBranches` whose draw
falls under `branchChance`. -/
def branchCount (d : NodeDraw) : ℕ :=
  (List.range maxBranches).countP fun i => decide (d.branchSrc i < branchChance)

/-- Function `createSegmentsRecursive` of `index.ts`, with explicit recursion fuel.
`rand p` supplies the draws of the node at path `p`. -/
def createSegmentsRecursiveP (treePal leafPal : List String) (rand : List ℕ → NodeDraw)
    (leafFuel : ℕ) : ℕ → Segment → ℚ → Vec2 → ℚ → Option GenResult
  | 0, _, _, _, _ => none
  | fuel + 1, parent, mg, preferredDir, widthMultiplier =>
    match createSegmentP treePal leafPal (rand []) leafFuel parent preferredDir
        widthMultiplier with
    | none => none
    | some segment =>
      let minX := min segment.start.x segment.end_.x
      let maxX := max segment.start.x segment.end_.x
      if segment.length > mg then some ⟨segment, minX, maxX⟩
      else
        let d := rand []
        let numBranches := 1 + branchCount d
        let parentDir := if parent.end_.x > parent.start.x then Vec2.RIGHT else Vec2.LEFT
        match allSome ((List.range numBranches).map fun i =>
          if i = 0 then
            createSegmentsRecursiveP treePal leafPal (fun p => rand (i :: p)) leafFuel
              fuel segment (mg - segment.length) preferredDir segment.widthMultiplier
          else
            createSegmentsRecursiveP treePal leafPal (fun p => rand (i :: p)) leafFuel
              fuel segment ((mg - segment.length) * (2 / 5))
              (Vec2.UP.lerp parentDir (d.branchT i)) d.extraWidth) with
        | none => none
        | some children =>
          some ⟨Segment.mk segment.start segment.end_ segment.length
              (segment.maxLeafDist +
                children.foldl (fun mx c => max mx c.segment.maxLeafDist) 0)
              segment.colorStops segment.widthMultiplier
              (some (children.map fun c => c.segment)) segment.leaves,
            children.foldl (fun m c => min m c.minX) minX,
            children.foldl (fun m c => max m c.maxX) maxX⟩

/-- Wrapper `createSegment` with the palettes of the source. -/
def createSegment (d : NodeDraw) (leafFuel : ℕ) (parent : Segment) (preferredDir : Vec2)
    (widthMultiplier : ℚ) : Option Segment :=
  createSegmentP treePalette leafPalette d leafFuel parent preferredDir widthMultiplier

/-- Wrapper `createSegmentsRecursive` with the palettes of the source. -/
def createSegmentsRecursive (rand : List ℕ → NodeDraw) (leafFuel fuel : ℕ)
    (parent : Segment) (mg : ℚ) (preferredDir : Vec2) (widthMultiplier : ℚ) :
    Option GenResult :=
  createSegmentsRecursiveP treePalette leafPalette rand leafFuel fuel parent mg
    preferredDir widthMultiplier

/-- The root stub `createTree` starts the recursion from. -/
def rootStub : Segment :=
  Segment.mk Vec2.DOWN Vec2.zero 1 0 [] 1 none []

def xPadding : ℚ := maxRadiusMultiplier + leafSidewaysFallOffset + leafWidthMultiplier

/-- Non-positional draws of `createTree`: `growthSrc` is the `Math.random()`
of the budget, `maxAgeDraw` the `randRange(minAge, maxAge)` result. -/
structure TreeDraws where
  rand : List ℕ → NodeDraw
  growthSrc : ℚ
  maxAgeDraw : ℚ

/-- Function `createTree` of `index.ts`. -/
def createTree (td : TreeDraws) (leafFuel fuel : ℕ) (created xPercent : ℚ) :
    Option Tree :=
  (createSegmentsRecursive td.rand leafFuel fuel rootStub
      (maxGrowth * (1 - td.growthSrc * (1 / 5))) Vec2.UP 1).map fun r =>
    ⟨created, xPercent, td.maxAgeDraw, r.segment, r.minX - xPadding, r.maxX + xPadding⟩

/-! ## Frame update (`animationFrame` tree-list transform) -/

/-- Per-frame scroll of one tree: only `xPercent` moves. `shift` is the
frame's scroll delta
`viewShiftSpeed * aspectRatioSqrt * time.delta * 4 * treeSpacingMultiplier
/ (w / h)` (irrational via the square root, hence a parameter). -/
def updatedTree (shift : ℚ) (t : Tree) : Tree :=
  { t with xPercent := t.xPercent - shift }

/-- The `filter` predicate of `animationFrame`: a tree is kept when its
scaled extents, shifted by the scroll offset `w * xPercent`, still satisfy
`minX * scale + w * xPercent ≤ w` and `maxX * scale + w * xPercent > 0`. -/
def treeVisible (scale w : ℚ) (t : Tree) : Bool :=
  decide (t.minX * scale + w * t.xPercent ≤ w) &&
    decide (t.maxX * scale + w * t.xPercent > 0)

/-- Spawn condition of `animationFrame`: push a new tree when the list is
empty or the last tree has scrolled in by the spacing threshold. -/
def shouldSpawn (w h : ℚ) (trees : List Tree) : Bool :=
  match trees.getLast? with
  | none => true
  | some lastTree => decide (w * (1 - lastTree.xPercent) > h * treeSpacingMultiplier)

/-- The tree-list transform of `animationFrame`: conditionally push a fresh
tree (`newTree`, the `createTree(time.now, 1)` result), scroll every tree by
`shift`, and cull offscreen trees with `treeVisible` at
`scale = h * 0.8`. -/
def frameTrees (w h shift : ℚ) (newTree : Tree) (trees : List Tree) : List Tree :=
  (((if shouldSpawn w h trees then trees ++ [newTree] else trees).map
    (updatedTree shift)).filter (treeVisible (h * (4 / 5)) w))

/-! ## Renderer arithmetic (`drawSegmentRecursive`) -/

/-- Value `timeToGrow` of `drawSegmentRecursive`. -/
def timeToGrow (s : Segment) : ℚ := s.length / growthPerSecond

/-- Value `maxGrowthAge` of `drawSegmentRecursive`. -/
def maxGrowthAge (s : Segment) (age : ℚ) : ℚ :=
  min age (s.maxLeafDist / growthPerSecond)

/-- Value `baseGrowth` of `drawSegmentRecursive`. -/
def baseGrowth (s : Segment) (age : ℚ) : ℚ :=
  maxGrowthAge s age / timeToGrow s

/-- Screen-space start point of the stroke. -/
def drawStart (s : Segment) (scale : ℚ) (offset : Vec2) : Vec2 :=
  (Vec2.smul scale s.start).add offset

/-- Screen-space full end point of the stroke. -/
def drawEnd (s : Segment) (scale : ℚ) (offset : Vec2) : Vec2 :=
  (Vec2.smul scale s.end_).add offset

/-- Screen-space drawn end point: the lerp toward `drawEnd` capped at the
full segment (`Math.min(1, baseGrowth)`). -/
def drawEndLerped (s : Segment) (scale : ℚ) (offset : Vec2) (age : ℚ) : Vec2 :=
  (drawStart s scale offset).lerp (drawEnd s scale offset) (min 1 (baseGrowth s age))

/-- Duplicate each color stop at the next stop's position, as the renderer's
`forEach` over `segment.colorStops` does to build a piecewise-constant
gradient. -/
def dupStops : List (ℚ × String) → List (ℚ × String)
  | [] => []
  | [(p, c)] => [(p, c)]
  | (p, c) :: (q, d) :: rest => (p, c) :: (q, c) :: dupStops ((q, d) :: rest)

/-- The continuation stop the renderer prepends: present exactly when the
parent's last color exists, the segment has a first stop, and that first
stop sits strictly right of `0`. -/
def gradientPre (lastParentColor : Option String) (firstStop : Option ℚ) :
    List (ℚ × String) :=
  match lastParentColor, firstStop with
  | some c, some f => if 0 < f then [(f, "#" ++ c)] else []
  | _, _ => []

/-- The gradient stops the renderer adds for a segment. -/
def gradientStops (parent : Option Segment) (s : Segment) : List (ℚ × String) :=
  gradientPre (parent.bind fun p => (p.colorStops.getLast?).map Prod.snd)
      ((s.colorStops.head?).map Prod.fst) ++
    dupStops (s.colorStops.map fun pc => (pc.1, "#" ++ pc.2))

/-- Value `maxDistFromEnd` of the renderer's leaf pass. -/
def maxDistFromEnd (s : Segment) (age : ℚ) : ℚ :=
  min s.maxLeafDist (age * growthPerSecond)

/-- Value `distFromEnd` computed per leaf in the renderer (positive while the
leaf is still attached). -/
def leafDistFromEnd (lf : Leaf) (s : Segment) (age : ℚ) : ℚ :=
  lf.segmentPercent * s.length - (maxDistFromEnd s age - lf.distFromEnd)

/-- Value `leafYPos` of the renderer: the fallen leaf's `y`, clamped to ground
level by `Math.min(..., 0)`. -/
def leafYPos (lf : Leaf) (s : Segment) (age : ℚ) : ℚ :=
  min (lf.pos.y -
    (lf.segmentPercent * s.length - (age * growthPerSecond - lf.distFromEnd)) *
      leafFallSpeed) 0

/-- The tree-space `y` at which the leaf is drawn: its attachment position
while `distFromEnd > 0`; once falling, `leafYPos` plus the sinusoidal
down-velocity offset
`Math.sin(sidewaysSpeed * yOffset * goldenRatio) * leafMaxDownVelOffset`
with `yOffset = pos.y - leafYPos`.  The transcendental profile
`u ↦ sin(sidewaysSpeed * u * goldenRatio)` (where `sidewaysSpeed = scale *
leafSidewaysFallSpeed`) is carried as the abstract function `wave`: it
vanishes at `0`, is bounded by `1`, and is Lipschitz with rate
`sidewaysSpeed * goldenRatio`. -/
def drawnLeafY (wave : ℚ → ℚ) (lf : Leaf) (s : Segment) (age : ℚ) : ℚ :=
  if 0 < leafDistFromEnd lf s age then lf.pos.y
  else leafYPos lf s age + wave (lf.pos.y - leafYPos lf s age) * leafMaxDownVelOffset

/-- The screen-space `y` at which the leaf is drawn:
`(... ).multiply(scale).add(offset).min(leafBoundingVec)`, whose `y`
component clamps at `offset.y - scale * leafLengthMultiplier`. -/
def leafDrawScreenY (wave : ℚ → ℚ) (lf : Leaf) (s : Segment)
    (scale offsetY age : ℚ) : ℚ :=
  min (drawnLeafY wave lf s age * scale + offsetY)
    (offsetY - scale * leafLengthMultiplier)

/-- How far the drawn leaf has dropped below the drawn attachment
position. -/
def leafFallDist (wave : ℚ → ℚ) (lf : Leaf) (s : Segment)
    (scale offsetY age : ℚ) : ℚ :=
  leafDrawScreenY wave lf s scale offsetY age - (lf.pos.y * scale + offsetY)

/-! ## Invariant predicates over generated segment trees -/

/-- Fold with `Math.max` and initial value `0`, as the generator's `reduce`. -/
def maxFold (l : List ℚ) : ℚ := l.foldl max 0

/-- Branch-path continuity: throughout the tree, every child's `start` is
its parent's `end`. -/
inductive Linked : Segment → Prop where
  | mk : ∀ s : Segment,
      (∀ cs, s.children = some cs → ∀ c ∈ cs, c.start = s.end_) →
      (∀ cs, s.children = some cs → ∀ c ∈ cs, Linked c) → Linked s

/-- Shape of `maxLeafDist` throughout a generated tree: the segment's own
length at the leaves of the recursion, own length plus the children's
maximum otherwise (with a nonempty child list). -/
inductive MldInv : Segment → Prop where
  | leaf : ∀ s : Segment, s.children = none → s.maxLeafDist = s.length → MldInv s
  | node : ∀ (s : Segment) (cs : List Segment), s.children = some cs → cs ≠ [] →
      s.maxLeafDist = s.length + maxFold (cs.map Segment.maxLeafDist) →
      (∀ c ∈ cs, MldInv c) → MldInv s

/-- Invariant on the continuation offset: it always lands in
`[0, colorSize]`, so the next segment's stop count is at least `0` and its
first stop's position is below `1`. -/
def StopsOK (s : Segment) : Prop :=
  0 ≤ contOffset s ∧ contOffset s ≤ colorSize

/-- Invariant on the leaves: the last leaf (whose offset seeds the child's
leaf loop) never sits at a negative fraction of its segment. -/
def LeavesOK (s : Segment) : Prop :=
  ∀ lf, s.leaves.getLast? = some lf → 0 ≤ lf.segmentPercent

/-! ## Concrete instances used by the witnesses and counterexamples -/

/-- A fixed leaf-loop draw: spacing `leafSpacingMax`, palette index `0`. -/
def cLeafDraw : LeafDraw := ⟨0, 3/100, 1/10, 0, 0⟩

/-- A fixed node draw: length `minSegmentLength`, direction straight up,
extra-branch draws above `branchChance` (no extra branches). -/
def cNodeDraw : NodeDraw :=
  ⟨3/50, ⟨0, -1⟩, 0, fun _ => 0, fun _ => cLeafDraw, fun _ => 1, fun _ => 1/2, 1⟩

/-- The constant draw source built from `cNodeDraw`. -/
def cRand : List ℕ → NodeDraw := fun _ => cNodeDraw

/-- A node draw whose first extra-branch slot fires (`branchSrc 0 = 0 <
branchChance`), giving one extra branch. -/
def cNodeDraw2 : NodeDraw :=
  ⟨3/50, ⟨0, -1⟩, 0, fun _ => 0, fun _ => cLeafDraw, fun i => if i = 0 then 0 else 1,
    fun _ => 1/2, 1⟩

/-- The constant draw source built from `cNodeDraw2`. -/
def cRand2 : List ℕ → NodeDraw := fun _ => cNodeDraw2

/-- The intersection notion of claim C1, read with the stated closed range
`[0, w]`: some point lies in both `[lo, hi]` and `[l, r]`. -/
def closedIntersect (lo hi l r : ℚ) : Prop :=
  ∃ x, lo ≤ x ∧ x ≤ hi ∧ l ≤ x ∧ x ≤ r

/-- A tree whose shifted, scaled extents are `[-1, 0]`: they touch the
visible range `[0, w]` in the single point `0`. -/
def cexTree : Tree :=
  ⟨0, 0, 0, rootStub, -1, 0⟩

/-- A tree with extents `[0, 1]`, fully visible at scale `1`, width `1`. -/
def visTree : Tree :=
  ⟨0, 0, 0, rootStub, 0, 1⟩

/-- A concrete fully grown segment for the C2 witness. -/
def growSeg : Segment :=
  Segment.mk ⟨0, 0⟩ ⟨0, -1/10⟩ (1/10) (1/5) [] 1 none []

/-- An ordinary leaf attached above ground level. -/
def monoLeaf : Leaf :=
  ⟨"A97921", 1, 0, ⟨0, -1⟩, 1/10⟩

/-- Owner segment of `monoLeaf`. -/
def monoSeg : Segment :=
  Segment.mk ⟨0, 0⟩ ⟨0, -1⟩ (3/50) 1 [] 1 none [monoLeaf]

/-- A steep wobble profile for the C6 counterexample.  It vanishes at `0`
and is bounded by `1`; its values at the two offsets the counterexample
samples — `0` and `-1/200` — are exactly those of the program's profile
`sin(sidewaysSpeed * u * goldenRatio)` when `sidewaysSpeed * goldenRatio`
is an odd multiple of `100 * π` over 2 (e.g. canvas height around 12000
pixels), where the wobble rate outruns the base fall rate. -/
def cWave : ℚ → ℚ := fun u => if u < 0 then -1 else 0

/-- A gentle wobble profile (the unit clamp) for the C6 witness: it
vanishes at `0`, is bounded by `1`, and is Lipschitz with rate `1`. -/
def wWave : ℚ → ℚ := fun u => max (-1) (min 1 u)

/-- An input tree for the C8 witness, halfway across the viewport. -/
def t8 : Tree :=
  ⟨0, 1/2, 0, rootStub, 0, 1⟩

/-- The freshly spawned tree of the C8 witness, at the right edge. -/
def nt8 : Tree :=
  ⟨9, 1, 9, rootStub, 0, 1⟩

/-! ## Claim C1: offscreen culling vs. interval intersection -/

/-- Claim C1 is false as stated: at scale `1` and viewport width `1`, the
tree `cexTree` has extents `[-1, 0]`, which do intersect the closed range
`[0, 1]` (at `x = 0`), yet the filter of `animationFrame` drops it, because
the left-edge comparison `maxX * scale + w * xPercent > 0` is strict. -/
theorem claim_C1_counterexample :
    treeVisible 1 1 cexTree = false ∧
      closedIntersect (cexTree.minX * 1 + 1 * cexTree.xPercent)
        (cexTree.maxX * 1 + 1 * cexTree.xPercent) 0 1 := by
  refine ⟨by norm_num [treeVisible, cexTree], ⟨0, ?_, ?_, ?_, ?_⟩⟩ <;> norm_num [cexTree]

/-- Claim C1, amended as the counterexample forces: a tree is retained by
the frame update exactly when its extents, multiplied by the scale and
shifted by the scroll offset `w * xPercent`, intersect the half-open
visible range `(0, w]` — strict at the left edge, closed at the right. -/
theorem claim_C1 (scale w : ℚ) (t : Tree) (hext : t.minX * scale ≤ t.maxX * scale)
    (hw : 0 < w) :
    treeVisible scale w t = true ↔
      ∃ x, t.minX * scale + w * t.xPercent ≤ x ∧ x ≤ t.maxX * scale + w * t.xPercent ∧
        0 < x ∧ x ≤ w := by
  unfold treeVisible
  simp only [Bool.and_eq_true, decide_eq_true_eq]
  constructor
  · rintro ⟨h1, h2⟩
    refine ⟨min (t.maxX * scale + w * t.xPercent) w, ?_, min_le_left _ _,
      lt_min h2 hw, min_le_right _ _⟩
    exact le_min (by linarith) (by linarith)
  · rintro ⟨x, hx1, hx2, hx3, hx4⟩
    exact ⟨by linarith, by linarith⟩

theorem claim_C1_witness :
    treeVisible 1 1 visTree = true ↔
      ∃ x, visTree.minX * 1 + 1 * visTree.xPercent ≤ x ∧
        x ≤ visTree.maxX * 1 + 1 * visTree.xPercent ∧ 0 < x ∧ x ≤ 1 :=
  claim_C1 1 1 visTree (by norm_num [visTree]) (by norm_num)

/-! ## Claim C2: drawn stroke never exceeds the full segment -/

/-- Claim C2: for any age `≥ 0`, the stroke drawn for a segment — the lerp
from `drawStart` toward `drawEnd` by `min 1 baseGrowth` — never exceeds the
segment's full drawn length (compared via squared lengths), and reaches
exactly the full length (`drawEndLerped = drawEnd`) as soon as
`age ≥ length / growthPerSecond`.  The hypotheses `0 < length` and
`length ≤ maxLeafDist` hold for every generated segment (claim C10). -/
theorem claim_C2 (s : Segment) (age scale : ℚ) (offset : Vec2) (h0 : 0 ≤ age)
    (hlen : 0 < s.length) (hmld : s.length ≤ s.maxLeafDist) :
    Vec2.normSq ((drawEndLerped s scale offset age).sub (drawStart s scale offset)) ≤
      Vec2.normSq ((drawEnd s scale offset).sub (drawStart s scale offset)) ∧
      (s.length / growthPerSecond ≤ age →
        drawEndLerped s scale offset age = drawEnd s scale offset) := by
  have hgps : (0 : ℚ) < growthPerSecond := by norm_num [growthPerSecond]
  have httg : 0 < timeToGrow s := div_pos hlen hgps
  have hbg : 0 ≤ baseGrowth s age := by
    apply div_nonneg _ httg.le
    exact le_min h0 (div_nonneg (le_trans hlen.le hmld) hgps.le)
  set t : ℚ := min 1 (baseGrowth s age) with ht
  have ht0 : 0 ≤ t := le_min zero_le_one hbg
  have ht1 : t ≤ 1 := min_le_left _ _
  constructor
  · set a := drawStart s scale offset
    set b := drawEnd s scale offset
    show Vec2.normSq ((a.lerp b t).sub a) ≤ Vec2.normSq (b.sub a)
    simp only [Vec2.lerp, Vec2.sub, Vec2.normSq]
    have ht2 : t ^ 2 ≤ 1 := by nlinarith
    have hN : (0 : ℚ) ≤ (b.x - a.x) ^ 2 + (b.y - a.y) ^ 2 := by positivity
    calc (a.x + (b.x - a.x) * t - a.x) ^ 2 + (a.y + (b.y - a.y) * t - a.y) ^ 2
        = t ^ 2 * ((b.x - a.x) ^ 2 + (b.y - a.y) ^ 2) := by ring
      _ ≤ 1 * ((b.x - a.x) ^ 2 + (b.y - a.y) ^ 2) :=
        mul_le_mul_of_nonneg_right ht2 hN
      _ = (b.x - a.x) ^ 2 + (b.y - a.y) ^ 2 := one_mul _
  · intro hage
    have hmga : timeToGrow s ≤ maxGrowthAge s age :=
      le_min hage ((div_le_div_iff_of_pos_right hgps).mpr hmld)
    have hbg1 : 1 ≤ baseGrowth s age := (one_le_div httg).mpr hmga
    have ht' : t = 1 := min_eq_left hbg1
    show (drawStart s scale offset).lerp (drawEnd s scale offset) t = _
    rw [ht']
    ext <;> simp [Vec2.lerp]

theorem claim_C2_witness :
    Vec2.normSq ((drawEndLerped growSeg 1 ⟨0, 0⟩ 5).sub (drawStart growSeg 1 ⟨0, 0⟩)) ≤
      Vec2.normSq ((drawEnd growSeg 1 ⟨0, 0⟩).sub (drawStart growSeg 1 ⟨0, 0⟩)) ∧
      (growSeg.length / growthPerSecond ≤ 5 →
        drawEndLerped growSeg 1 ⟨0, 0⟩ 5 = drawEnd growSeg 1 ⟨0, 0⟩) :=
  claim_C2 growSeg 5 1 ⟨0, 0⟩ (by norm_num) (by norm_num [growSeg]) (by norm_num [growSeg])

/-! ## Claim C6: leaf fall distance -/

/-- The falling position `leafYPos` is monotone in the age. -/
theorem leafYPos_mono (lf : Leaf) (s : Segment) {age1 age2 : ℚ} (h : age1 ≤ age2) :
    leafYPos lf s age1 ≤ leafYPos lf s age2 := by
  unfold leafYPos
  apply min_le_min _ le_rfl
  have : (0 : ℚ) < growthPerSecond := by norm_num [growthPerSecond]
  have : (0 : ℚ) < leafFallSpeed := by norm_num [leafFallSpeed]
  nlinarith [mul_le_mul_of_nonneg_right (mul_le_mul_of_nonneg_right h
    (le_of_lt (by norm_num [growthPerSecond] : (0:ℚ) < growthPerSecond)))
    (le_of_lt (by norm_num [leafFallSpeed] : (0:ℚ) < leafFallSpeed))]

/-- The renderer's per-leaf `distFromEnd` does not increase with age. -/
theorem leafDistFromEnd_antitone (lf : Leaf) (s : Segment) {age1 age2 : ℚ}
    (h : age1 ≤ age2) : leafDistFromEnd lf s age2 ≤ leafDistFromEnd lf s age1 := by
  unfold leafDistFromEnd maxDistFromEnd
  have : age1 * growthPerSecond ≤ age2 * growthPerSecond :=
    mul_le_mul_of_nonneg_right h (by norm_num [growthPerSecond])
  have := min_le_min (le_refl s.maxLeafDist) this
  linarith

/-- The wobble profile `wWave` of the C6 witness is Lipschitz with rate 1. -/
theorem wWave_lip (u v : ℚ) : |wWave u - wWave v| ≤ 1 * |u - v| := by
  rw [one_mul]
  unfold wWave
  calc |max (-1) (min 1 u) - max (-1) (min 1 v)|
      ≤ max |(-1 : ℚ) - -1| |min 1 u - min 1 v| := abs_max_sub_max_le_max _ _ _ _
    _ ≤ |u - v| := by
        rw [sub_self, abs_zero]
        apply max_le (abs_nonneg _)
        calc |min 1 u - min 1 v| ≤ max |(1 : ℚ) - 1| |u - v| :=
              abs_min_sub_min_le_max _ _ _ _
          _ ≤ |u - v| := by rw [sub_self, abs_zero]; exact max_le (abs_nonneg _) le_rfl

/-- The screen clamp distributes over the scale: for `0 ≤ scale` the drawn
screen `y` equals `scale` times the clamped tree-space `y`, shifted by the
offset. -/
theorem screenY_eq (wave : ℚ → ℚ) (lf : Leaf) (s : Segment)
    (scale offsetY age : ℚ) (hscale : 0 ≤ scale) :
    leafDrawScreenY wave lf s scale offsetY age =
      min (drawnLeafY wave lf s age) (-leafLengthMultiplier) * scale + offsetY := by
  unfold leafDrawScreenY
  rcases le_total (drawnLeafY wave lf s age) (-leafLengthMultiplier) with h | h
  · have hs : drawnLeafY wave lf s age * scale + offsetY ≤
        offsetY - scale * leafLengthMultiplier := by
      nlinarith [mul_le_mul_of_nonneg_right h hscale]
    rw [min_eq_left hs, min_eq_left h]
  · have hs : offsetY - scale * leafLengthMultiplier ≤
        drawnLeafY wave lf s age * scale + offsetY := by
      nlinarith [mul_le_mul_of_nonneg_right h hscale]
    rw [min_eq_right hs, min_eq_right h]
    ring

/-- Core of C6: the tree-space drawn `y` of a leaf, clamped at
`-leafLengthMultiplier`, is monotone in the age whenever the wobble profile
vanishes at `0`, is bounded by `1`, and is `K`-Lipschitz with
`K * leafMaxDownVelOffset ≤ 1`. -/
theorem drawnLeafY_min_mono (wave : ℚ → ℚ) (K : ℚ) (lf : Leaf) (s : Segment)
    (hw0 : wave 0 = 0) (hwb : ∀ u, |wave u| ≤ 1)
    (hlip : ∀ u v, |wave u - wave v| ≤ K * |u - v|)
    (hK : K * leafMaxDownVelOffset ≤ 1) {age1 age2 : ℚ} (h12 : age1 ≤ age2) :
    min (drawnLeafY wave lf s age1) (-leafLengthMultiplier) ≤
      min (drawnLeafY wave lf s age2) (-leafLengthMultiplier) := by
  have hc0 : (0 : ℚ) ≤ leafMaxDownVelOffset := by norm_num [leafMaxDownVelOffset]
  have hcl : leafMaxDownVelOffset = leafLengthMultiplier := by
    norm_num [leafMaxDownVelOffset, leafLengthMultiplier]
  unfold drawnLeafY
  by_cases h2 : 0 < leafDistFromEnd lf s age2
  · have h1 : 0 < leafDistFromEnd lf s age1 :=
      lt_of_lt_of_le h2 (leafDistFromEnd_antitone lf s h12)
    rw [if_pos h1, if_pos h2]
  · have hd : leafDistFromEnd lf s age2 ≤ 0 := le_of_not_lt h2
    unfold leafDistFromEnd maxDistFromEnd at hd
    have hmin : min s.maxLeafDist (age2 * growthPerSecond) ≤ age2 * growthPerSecond :=
      min_le_right _ _
    have hx : lf.segmentPercent * s.length - (age2 * growthPerSecond - lf.distFromEnd) ≤ 0 := by
      linarith
    have hfs : (0 : ℚ) ≤ leafFallSpeed := by norm_num [leafFallSpeed]
    have hinner : lf.pos.y ≤ lf.pos.y -
        (lf.segmentPercent * s.length - (age2 * growthPerSecond - lf.distFromEnd)) *
          leafFallSpeed := by
      nlinarith [mul_nonneg (neg_nonneg.mpr hx) hfs]
    by_cases h1 : 0 < leafDistFromEnd lf s age1
    · rw [if_pos h1, if_neg h2]
      rcases le_or_lt lf.pos.y 0 with hp | hp
      · have hpY2 : lf.pos.y ≤ leafYPos lf s age2 := by
          unfold leafYPos
          exact le_min hinner hp
        have h0 := (abs_le.mp (hlip (lf.pos.y - leafYPos lf s age2) 0)).1
        rw [hw0, sub_zero, sub_zero,
          abs_of_nonpos (by linarith : lf.pos.y - leafYPos lf s age2 ≤ 0), neg_sub] at h0
        have key : (leafYPos lf s age2 - lf.pos.y) * (K * leafMaxDownVelOffset) ≤
            (leafYPos lf s age2 - lf.pos.y) * 1 :=
          mul_le_mul_of_nonneg_left hK (by linarith)
        have key2 : (-(K * (leafYPos lf s age2 - lf.pos.y))) * leafMaxDownVelOffset ≤
            wave (lf.pos.y - leafYPos lf s age2) * leafMaxDownVelOffset :=
          mul_le_mul_of_nonneg_right h0 hc0
        exact min_le_min (by nlinarith [key, key2]) le_rfl
      · have hY20 : leafYPos lf s age2 = 0 := by
          unfold leafYPos
          exact min_eq_right (by linarith)
        have hwb2 := (abs_le.mp (hwb (lf.pos.y - leafYPos lf s age2))).1
        have hmul : (-1 : ℚ) * leafMaxDownVelOffset ≤
            wave (lf.pos.y - leafYPos lf s age2) * leafMaxDownVelOffset :=
          mul_le_mul_of_nonneg_right hwb2 hc0
        have hminp : min lf.pos.y (-leafLengthMultiplier) = -leafLengthMultiplier :=
          min_eq_right (by norm_num [leafLengthMultiplier]; linarith)
        rw [hminp]
        exact le_min (by nlinarith [hmul, hY20, hcl]) le_rfl
    · rw [if_neg h1, if_neg h2]
      have hY12 : leafYPos lf s age1 ≤ leafYPos lf s age2 := leafYPos_mono lf s h12
      have h0 := (abs_le.mp (hlip (lf.pos.y - leafYPos lf s age2)
        (lf.pos.y - leafYPos lf s age1))).1
      rw [show lf.pos.y - leafYPos lf s age2 - (lf.pos.y - leafYPos lf s age1) =
          -(leafYPos lf s age2 - leafYPos lf s age1) by ring, abs_neg,
        abs_of_nonneg (by linarith : (0 : ℚ) ≤ leafYPos lf s age2 - leafYPos lf s age1)] at h0
      have key : (leafYPos lf s age2 - leafYPos lf s age1) * (K * leafMaxDownVelOffset) ≤
          (leafYPos lf s age2 - leafYPos lf s age1) * 1 :=
        mul_le_mul_of_nonneg_left hK (by linarith)
      have key2 : (-(K * (leafYPos lf s age2 - leafYPos lf s age1))) * leafMaxDownVelOffset ≤
          (wave (lf.pos.y - leafYPos lf s age2) - wave (lf.pos.y - leafYPos lf s age1)) *
            leafMaxDownVelOffset :=
        mul_le_mul_of_nonneg_right h0 hc0
      exact min_le_min (by nlinarith [key, key2]) le_rfl

/-- Claim C6 is false as stated: under the steep wobble profile `cWave` —
which the program's profile `sin(scale * leafSidewaysFallSpeed * goldenRatio * u)`
matches at the two offsets sampled (`0` and `-1/200`) once the scale is
large enough that a quarter wobble period fits in a `1/200` drop — the
rendered fall distance of the ordinary above-ground leaf `monoLeaf`
decreases from `0` at age `4` to `-1/200` at age `65/16`, so it is not
monotonically non-decreasing in the age. -/
theorem claim_C6_counterexample :
    cWave 0 = 0 ∧ (∀ u, |cWave u| ≤ 1) ∧ (4 : ℚ) ≤ 65/16 ∧
      leafFallDist cWave monoLeaf monoSeg 1 0 (65/16) <
        leafFallDist cWave monoLeaf monoSeg 1 0 4 := by
  refine ⟨by norm_num [cWave], fun u => ?_, by norm_num, ?_⟩
  · simp only [cWave]
    split <;> norm_num
  · norm_num [leafFallDist, leafDrawScreenY, drawnLeafY, leafDistFromEnd, maxDistFromEnd,
      leafYPos, cWave, monoLeaf, monoSeg, growthPerSecond, leafFallSpeed,
      leafMaxDownVelOffset, leafLengthMultiplier, min_def]

/-- Claim C6, amended as the counterexample forces: whenever the wobble
profile is gentle — `K`-Lipschitz with `K * leafMaxDownVelOffset ≤ 1`, which
holds of the program's sine whenever
`scale * leafSidewaysFallSpeed * goldenRatio * leafMaxDownVelOffset ≤ 1` —
the rendered fall distance of every leaf is monotonically non-decreasing in
the elapsed age (with `0 ≤ scale`); moreover the falling tree-space `y` is
clamped at ground level by `Math.min(..., 0)` and the drawn screen `y` is
clamped by `leafBoundingVec` at `offset.y - scale * leafLengthMultiplier`,
for every age. -/
theorem claim_C6 (wave : ℚ → ℚ) (K : ℚ) (lf : Leaf) (s : Segment)
    (scale offsetY : ℚ) (hw0 : wave 0 = 0) (hwb : ∀ u, |wave u| ≤ 1)
    (hlip : ∀ u v, |wave u - wave v| ≤ K * |u - v|)
    (hK : K * leafMaxDownVelOffset ≤ 1) (hscale : 0 ≤ scale)
    (age1 age2 : ℚ) (h12 : age1 ≤ age2) :
    leafFallDist wave lf s scale offsetY age1 ≤
        leafFallDist wave lf s scale offsetY age2 ∧
      (∀ age, leafYPos lf s age ≤ 0) ∧
      (∀ age, leafDrawScreenY wave lf s scale offsetY age ≤
        offsetY - scale * leafLengthMultiplier) := by
  refine ⟨?_, fun age => min_le_right _ _, fun age => min_le_right _ _⟩
  have hM := drawnLeafY_min_mono wave K lf s hw0 hwb hlip hK h12
  unfold leafFallDist
  rw [screenY_eq wave lf s scale offsetY age1 hscale,
    screenY_eq wave lf s scale offsetY age2 hscale]
  have := mul_le_mul_of_nonneg_right hM hscale
  linarith

theorem claim_C6_witness :
    leafFallDist wWave monoLeaf monoSeg 1 0 0 ≤ leafFallDist wWave monoLeaf monoSeg 1 0 4 ∧
      leafYPos monoLeaf monoSeg 7 ≤ 0 ∧
      leafDrawScreenY wWave monoLeaf monoSeg 1 0 7 ≤ 0 - 1 * leafLengthMultiplier := by
  have h := claim_C6 wWave 1 monoLeaf monoSeg 1 0
    (by norm_num [wWave, min_def, max_def])
    (fun u => abs_le.mpr ⟨le_max_left _ _, max_le (by norm_num) (min_le_left _ _)⟩)
    wWave_lip (by norm_num [leafMaxDownVelOffset]) (by norm_num) 0 4 (by norm_num)
  exact ⟨h.1, h.2.1 7, h.2.2 7⟩

/-! ## Helper lemmas on folds and the invariant predicates -/

theorem le_foldl_max (l : List ℚ) : ∀ a : ℚ, a ≤ l.foldl max a := by
  induction l with
  | nil => intro a; exact le_refl a
  | cons b t ih => intro a; exact le_trans (le_max_left a b) (ih (max a b))

theorem maxFold_nonneg (l : List ℚ) : 0 ≤ maxFold l := le_foldl_max l 0

/-- Field `maxLeafDist` dominates the segment's own length throughout a tree
satisfying `MldInv`. -/
theorem MldInv.length_le {s : Segment} (h : MldInv s) : s.length ≤ s.maxLeafDist := by
  cases h with
  | leaf s hc hm => exact le_of_eq hm.symm
  | node s cs hc hne hm hcs =>
    rw [hm]
    linarith [maxFold_nonneg (cs.map Segment.maxLeafDist)]

/-- Once the age passes `timeToGrow`, the capped growth fraction is `1`. -/
theorem growth_saturates {s : Segment} (hlen : 0 < s.length)
    (hmld : s.length ≤ s.maxLeafDist) {age : ℚ} (hage : timeToGrow s ≤ age) :
    min 1 (baseGrowth s age) = 1 := by
  have hgps : (0 : ℚ) < growthPerSecond := by norm_num [growthPerSecond]
  have httg : 0 < timeToGrow s := div_pos hlen hgps
  exact min_eq_left ((one_le_div httg).mpr
    (le_min hage ((div_le_div_iff_of_pos_right hgps).mpr hmld)))

/-! ## Helper lemmas on the leaf loop -/

/-- With leaf spacing draws of at least `leafSpacingMin`, fuel covering the
remaining distance suffices for the leaf loop to reach its exit condition. -/
theorem makeLeavesP_isSome (leafPal : List String) (d : NodeDraw) (length : ℚ)
    (s e : Vec2) (ang : ℚ) (hsp : ∀ k, leafSpacingMin ≤ (d.leaf k).spacing) :
    ∀ (fuel : ℕ) (off : ℚ) (k : ℕ), length - off ≤ leafSpacingMin * fuel →
      (makeLeavesP leafPal d length s e ang fuel off k).isSome = true := by
  intro fuel
  induction fuel with
  | zero =>
    intro off k hb
    unfold makeLeavesP
    rw [if_neg]
    · rfl
    · push_cast at hb
      norm_num [leafSpacingMin, leafSpacingMax] at hb ⊢
      linarith
  | succ fuel ih =>
    intro off k hb
    unfold makeLeavesP
    by_cases hc : length > off + (leafSpacingMin + leafSpacingMax) / 2
    · rw [if_pos hc]
      simp only [Option.isSome_map']
      apply ih
      rcases le_or_lt (off + (d.leaf k).spacing) length with h | h
      · rw [min_eq_left h]
        have hk := hsp k
        push_cast at hb
        linarith
      · rw [min_eq_right h.le]
        have : (0 : ℚ) ≤ leafSpacingMin * fuel :=
          mul_nonneg (by norm_num [leafSpacingMin]) (Nat.cast_nonneg fuel)
        linarith
    · rw [if_neg hc]; rfl

/-- A run of the leaf loop that returns the empty list stopped on its exit
condition. -/
theorem makeLeavesP_nil {leafPal : List String} {d : NodeDraw} {length : ℚ}
    {s e : Vec2} {ang : ℚ} {fuel : ℕ} {off : ℚ} {k : ℕ}
    (h : makeLeavesP leafPal d length s e ang fuel off k = some []) :
    ¬ length > off + (leafSpacingMin + leafSpacingMax) / 2 := by
  intro hc
  cases fuel with
  | zero =>
    unfold makeLeavesP at h
    rw [if_pos hc] at h
    cases h
  | succ fuel =>
    unfold makeLeavesP at h
    rw [if_pos hc] at h
    simp only [Option.map_eq_some'] at h
    obtain ⟨rest, _, hcons⟩ := h
    exact List.cons_ne_nil _ _ hcons

/-- Every leaf list the loop produces puts its last leaf at a nonnegative
fraction of the segment (the loop only stops once the offset is within
`(leafSpacingMin + leafSpacingMax) / 2` of the full length). -/
theorem makeLeavesP_last {leafPal : List String} {d : NodeDraw} {length : ℚ}
    {s e : Vec2} {ang : ℚ} (hlen : minSegmentLength ≤ length) :
    ∀ (fuel : ℕ) (off : ℚ) (k : ℕ) (l : List Leaf),
      makeLeavesP leafPal d length s e ang fuel off k = some l →
      ∀ lf, l.getLast? = some lf → 0 ≤ lf.segmentPercent := by
  intro fuel
  induction fuel with
  | zero =>
    intro off k l h lf hl
    unfold makeLeavesP at h
    by_cases hc : length > off + (leafSpacingMin + leafSpacingMax) / 2
    · rw [if_pos hc] at h; cases h
    · rw [if_neg hc] at h
      injection h with h
      subst h
      cases hl
  | succ fuel ih =>
    intro off k l h lf hl
    unfold makeLeavesP at h
    by_cases hc : length > off + (leafSpacingMin + leafSpacingMax) / 2
    · rw [if_pos hc] at h
      simp only [Option.map_eq_some'] at h
      obtain ⟨rest, hrest, hcons⟩ := h
      subst hcons
      cases rest with
      | nil =>
        have hstop := makeLeavesP_nil hrest
        rw [List.getLast?_singleton] at hl
        injection hl with hl
        subst hl
        show 0 ≤ min (off + (d.leaf k).spacing) length / length
        have hlpos : (0 : ℚ) < length := by
          norm_num [minSegmentLength] at hlen; linarith
        apply div_nonneg _ hlpos.le
        norm_num [leafSpacingMin, leafSpacingMax] at hstop
        rcases min_cases (off + (d.leaf k).spacing) length with ⟨hm, _⟩ | ⟨hm, _⟩ <;>
          rw [hm]
        · norm_num [minSegmentLength] at hlen
          linarith
        · linarith
      | cons b t =>
        rw [List.getLast?_cons_cons] at hl
        exact ih _ _ _ hrest lf hl
    · rw [if_neg hc] at h
      injection h with h
      subst h
      cases hl

/-- With an empty leaf palette, every produced leaf wears the fallback
color `"brown"`. -/
theorem makeLeavesP_brown {d : NodeDraw} {length : ℚ} {s e : Vec2} {ang : ℚ} :
    ∀ (fuel : ℕ) (off : ℚ) (k : ℕ) (l : List Leaf),
      makeLeavesP [] d length s e ang fuel off k = some l →
      ∀ lf ∈ l, lf.color = "brown" := by
  intro fuel
  induction fuel with
  | zero =>
    intro off k l h lf hl
    unfold makeLeavesP at h
    by_cases hc : length > off + (leafSpacingMin + leafSpacingMax) / 2
    · rw [if_pos hc] at h; cases h
    · rw [if_neg hc] at h
      injection h with h
      subst h
      cases hl
  | succ fuel ih =>
    intro off k l h lf hl
    unfold makeLeavesP at h
    by_cases hc : length > off + (leafSpacingMin + leafSpacingMax) / 2
    · rw [if_pos hc] at h
      simp only [Option.map_eq_some'] at h
      obtain ⟨rest, hrest, hcons⟩ := h
      subst hcons
      rcases List.mem_cons.mp hl with hlf | hlf
      · subst hlf
        rfl
      · exact ih _ _ _ hrest lf hlf
    · rw [if_neg hc] at h
      injection h with h
      subst h
      cases hl

/-! ## Helper lemmas on `allSome` -/

theorem allSome_eq_map_some {α : Type} :
    ∀ {l : List (Option α)} {l' : List α}, allSome l = some l' → l = l'.map some := by
  intro l
  induction l with
  | nil =>
    intro l' h
    injection h with h
    subst h
    rfl
  | cons o rest ih =>
    intro l' h
    unfold allSome at h
    cases o with
    | none => cases h
    | some a =>
      cases hrest : allSome rest with
      | none => rw [hrest] at h; cases h
      | some t =>
        rw [hrest] at h
        simp only [Option.bind_some, Option.map_some'] at h
        injection h with h
        subst h
        simp only [List.map_cons]
        rw [← ih hrest]

theorem allSome_isSome {α : Type} :
    ∀ (l : List (Option α)), (∀ o ∈ l, o.isSome = true) → (allSome l).isSome = true := by
  intro l
  induction l with
  | nil => intro _; rfl
  | cons o rest ih =>
    intro h
    have ho := h o (List.mem_cons_self o rest)
    obtain ⟨a, ha⟩ := Option.isSome_iff_exists.mp ho
    have hrest := ih fun o' ho' => h o' (List.mem_cons_of_mem o ho')
    obtain ⟨t, ht⟩ := Option.isSome_iff_exists.mp hrest
    subst ha
    unfold allSome
    rw [ht]
    rfl

/-! ## Helper lemmas on `createSegmentP` -/

theorem leafOff0_eq_none {parent : Segment} (h : parent.leaves.getLast? = none) :
    leafOff0 parent = 0 := by
  unfold leafOff0
  rw [h]

theorem leafOff0_eq_some {parent : Segment} {lf : Leaf}
    (h : parent.leaves.getLast? = some lf) :
    leafOff0 parent = (lf.segmentPercent - 1) * parent.length := by
  unfold leafOff0
  rw [h]

/-- Inversion of a successful `createSegmentP` run: the stop count was
nonnegative, the leaf loop completed, and the produced segment is fully
determined by the draw and the parent. -/
theorem createSegmentP_eq {tp lp : List String} {d : NodeDraw} {lfl : ℕ}
    {parent : Segment} {pd : Vec2} {w : ℚ} {seg : Segment}
    (h : createSegmentP tp lp d lfl parent pd w = some seg) :
    0 ≤ stopCountZ d parent ∧
      ∃ leaves, makeLeavesP lp d d.len parent.end_
          (parent.end_.add (Vec2.smul d.len d.dir)) d.segAngle lfl (leafOff0 parent) 0 =
          some leaves ∧
        seg = Segment.mk parent.end_ (parent.end_.add (Vec2.smul d.len d.dir)) d.len d.len
          (stopsList tp d parent) w none leaves := by
  unfold createSegmentP at h
  cases hml : makeLeavesP lp d d.len parent.end_
      (parent.end_.add (Vec2.smul d.len d.dir)) d.segAngle lfl (leafOff0 parent) 0 with
  | none => rw [hml] at h; cases h
  | some leaves =>
    rw [hml] at h
    simp only at h
    by_cases hneg : stopCountZ d parent < 0
    · rw [if_pos hneg] at h; cases h
    · rw [if_neg hneg] at h
      injection h with h
      subst h
      exact ⟨not_lt.mp hneg, leaves, rfl, rfl⟩

/-- Totality of `createSegmentP` under the program's draw ranges and the
parent invariants.  The `112` bound covers the worst case
`maxSegmentLength + parent.length ≤ 28/25 = leafSpacingMin * 112`. -/
theorem createSegmentP_isSome (tp lp : List String) (d : NodeDraw) (lfl : ℕ)
    (parent : Segment) (pd : Vec2) (w : ℚ)
    (hlen1 : minSegmentLength ≤ d.len) (hlen2 : d.len ≤ maxSegmentLength)
    (hsp : ∀ k, leafSpacingMin ≤ (d.leaf k).spacing)
    (hst : StopsOK parent) (hlv : LeavesOK parent)
    (hp0 : 0 ≤ parent.length) (hp1 : parent.length ≤ 1) (hlfl : 112 ≤ lfl) :
    (createSegmentP tp lp d lfl parent pd w).isSome = true := by
  unfold createSegmentP
  have hoff : -parent.length ≤ leafOff0 parent := by
    cases hl : parent.leaves.getLast? with
    | none => rw [leafOff0_eq_none hl]; linarith
    | some lf =>
      rw [leafOff0_eq_some hl]
      have hsp0 := hlv lf hl
      nlinarith
  have hml : (makeLeavesP lp d d.len parent.end_
      (parent.end_.add (Vec2.smul d.len d.dir)) d.segAngle lfl (leafOff0 parent) 0).isSome
      = true := by
    apply makeLeavesP_isSome _ _ _ _ _ _ hsp
    have hcast : (112 : ℚ) ≤ (lfl : ℚ) := by exact_mod_cast hlfl
    have hc2 : (28/25 : ℚ) ≤ leafSpacingMin * (lfl : ℚ) := by
      norm_num [leafSpacingMin]
      linarith
    norm_num [maxSegmentLength] at hlen2
    linarith
  obtain ⟨leaves, hl⟩ := Option.isSome_iff_exists.mp hml
  rw [hl]
  simp only
  have hneg : ¬ stopCountZ d parent < 0 := by
    rw [not_lt]
    unfold stopCountZ
    apply Int.ceil_nonneg
    apply div_nonneg _ (by norm_num [colorSize])
    rcases hst with ⟨h1, h2⟩
    norm_num [colorSize, minSegmentLength] at h2 hlen1 ⊢
    linarith
  rw [if_neg hneg]
  rfl

/-- The continuation-offset invariant propagates across `createSegmentP`. -/
theorem createSegmentP_stopsOK {tp lp : List String} {d : NodeDraw} {lfl : ℕ}
    {parent : Segment} {pd : Vec2} {w : ℚ} {seg : Segment}
    (h : createSegmentP tp lp d lfl parent pd w = some seg)
    (hlen : minSegmentLength ≤ d.len) (hst : StopsOK parent) : StopsOK seg := by
  obtain ⟨hnn, leaves, hml, hseg⟩ := createSegmentP_eq h
  have hlpos : (0 : ℚ) < d.len := by norm_num [minSegmentLength] at hlen; linarith
  have hcs : (0 : ℚ) < colorSize := by norm_num [colorSize]
  rcases hst with ⟨hoff0, hoffcs⟩
  subst hseg
  unfold StopsOK contOffset
  simp only [Segment.colorStops, Segment.length]
  unfold stopsList
  cases hn : (stopCountZ d parent).toNat with
  | zero =>
    simp
    norm_num [colorSize]
  | succ m =>
    have hceil : ((m : ℤ) + 1) = stopCountZ d parent := by
      rw [← Int.toNat_of_nonneg hnn, hn]
      push_cast
      ring
    have hlast : ((List.range (m + 1)).map fun (i : ℕ) =>
        (((i : ℚ) * colorSize + contOffset parent) / d.len,
          (randChoice tp (d.stopColorIdx i)).getD "white")).getLast? =
        some (((m : ℚ) * colorSize + contOffset parent) / d.len,
          (randChoice tp (d.stopColorIdx m)).getD "white") := by
      rw [List.getLast?_eq_getElem?]
      simp only [List.length_map, List.length_range]
      rw [List.getElem?_map, List.getElem?_range (by omega : m + 1 - 1 < m + 1)]
      rfl
    rw [hlast]
    dsimp only
    have hle : d.len - contOffset parent ≤ ((m : ℚ) + 1) * colorSize := by
      have h1 : (d.len - contOffset parent) / colorSize ≤ ((stopCountZ d parent : ℤ) : ℚ) := by
        unfold stopCountZ
        exact Int.le_ceil _
      rw [← hceil] at h1
      push_cast at h1
      rw [div_le_iff₀ hcs] at h1
      linarith
    have hgt : (m : ℚ) * colorSize + contOffset parent < d.len := by
      have hq : ((m : ℚ)) < (d.len - contOffset parent) / colorSize := by
        have h2 : ((stopCountZ d parent : ℤ) : ℚ) < (d.len - contOffset parent) / colorSize + 1 := by
          unfold stopCountZ
          exact_mod_cast Int.ceil_lt_add_one ((d.len - contOffset parent) / colorSize)
        rw [← hceil] at h2
        push_cast at h2
        linarith
      rw [lt_div_iff₀ hcs] at hq
      linarith
    constructor
    · have : ((m : ℚ) * colorSize + contOffset parent) / d.len < 1 :=
        (div_lt_one hlpos).mpr hgt
      nlinarith
    · have heq : d.len * (1 - ((m : ℚ) * colorSize + contOffset parent) / d.len) =
          d.len - ((m : ℚ) * colorSize + contOffset parent) := by
        field_simp
      rw [heq]
      linarith

/-- The last-leaf invariant holds for every produced segment. -/
theorem createSegmentP_leavesOK {tp lp : List String} {d : NodeDraw} {lfl : ℕ}
    {parent : Segment} {pd : Vec2} {w : ℚ} {seg : Segment}
    (h : createSegmentP tp lp d lfl parent pd w = some seg)
    (hlen : minSegmentLength ≤ d.len) : LeavesOK seg := by
  obtain ⟨_, leaves, hml, hseg⟩ := createSegmentP_eq h
  subst hseg
  intro lf hlf
  simp only [Segment.leaves] at hlf
  exact makeLeavesP_last hlen lfl (leafOff0 parent) 0 leaves hml lf hlf

/-! ## Invariants of the recursive generator -/

/-- Structural invariants of every successful generation run: the produced
segment starts at the parent's end, the whole tree is `Linked` (child
`start` = parent `end`), and `maxLeafDist` has the aggregated shape
(`MldInv`).  These hold for arbitrary draw values. -/
theorem gen_inv (tp lp : List String) (lfl : ℕ) :
    ∀ (fuel : ℕ) (rand : List ℕ → NodeDraw) (parent : Segment) (mg : ℚ) (pd : Vec2)
      (w : ℚ) (res : GenResult),
      createSegmentsRecursiveP tp lp rand lfl fuel parent mg pd w = some res →
      res.segment.start = parent.end_ ∧ Linked res.segment ∧ MldInv res.segment := by
  intro fuel
  induction fuel with
  | zero =>
    intro rand parent mg pd w res h
    unfold createSegmentsRecursiveP at h
    cases h
  | succ fuel ih =>
    intro rand parent mg pd w res h
    unfold createSegmentsRecursiveP at h
    cases hseg : createSegmentP tp lp (rand []) lfl parent pd w with
    | none => rw [hseg] at h; cases h
    | some segment =>
      rw [hseg] at h
      dsimp only at h
      obtain ⟨hnn, leaves, hml, hsegeq⟩ := createSegmentP_eq hseg
      have hstart : segment.start = parent.end_ := by simp [hsegeq]
      have hchil : segment.children = none := by simp [hsegeq]
      have hmldlen : segment.maxLeafDist = segment.length := by simp [hsegeq]
      by_cases hgt : segment.length > mg
      · rw [if_pos hgt] at h
        injection h with h
        subst h
        refine ⟨hstart, ?_, MldInv.leaf _ hchil hmldlen⟩
        exact Linked.mk _ (fun cs hcs => by rw [hchil] at hcs; cases hcs)
          (fun cs hcs => by rw [hchil] at hcs; cases hcs)
      · rw [if_neg hgt] at h
        cases hall : allSome ((List.range (1 + branchCount (rand []))).map fun i =>
          if i = 0 then
            createSegmentsRecursiveP tp lp (fun p => rand (i :: p)) lfl fuel segment
              (mg - segment.length) pd segment.widthMultiplier
          else
            createSegmentsRecursiveP tp lp (fun p => rand (i :: p)) lfl fuel segment
              ((mg - segment.length) * (2 / 5))
              (Vec2.UP.lerp
                (if parent.end_.x > parent.start.x then Vec2.RIGHT else Vec2.LEFT)
                ((rand []).branchT i)) (rand []).extraWidth) with
        | none => rw [hall] at h; cases h
        | some children =>
          rw [hall] at h
          dsimp only at h
          injection h with h
          subst h
          have hmap := allSome_eq_map_some hall
          have hfacts : ∀ gr ∈ children,
              gr.segment.start = segment.end_ ∧ Linked gr.segment ∧ MldInv gr.segment := by
            intro gr hgr
            have hmem : some gr ∈ children.map some := List.mem_map_of_mem some hgr
            rw [← hmap] at hmem
            obtain ⟨i, hi, hfi⟩ := List.mem_map.mp hmem
            by_cases hi0 : i = 0
            · rw [if_pos hi0] at hfi
              exact ih _ _ _ _ _ _ hfi
            · rw [if_neg hi0] at hfi
              exact ih _ _ _ _ _ _ hfi
          refine ⟨by simpa using hstart, ?_, ?_⟩
          · apply Linked.mk
            · intro cs hcs
              simp only [Segment.children] at hcs
              injection hcs with hcs
              subst hcs
              intro c hc
              obtain ⟨gr, hgr, rfl⟩ := List.mem_map.mp hc
              simpa using (hfacts gr hgr).1
            · intro cs hcs
              simp only [Segment.children] at hcs
              injection hcs with hcs
              subst hcs
              intro c hc
              obtain ⟨gr, hgr, rfl⟩ := List.mem_map.mp hc
              exact (hfacts gr hgr).2.1
          · apply MldInv.node _ (children.map fun c => c.segment)
            · simp
            · intro hnil
              rw [List.map_eq_nil_iff] at hnil
              rw [hnil] at hmap
              simp only [List.map_nil] at hmap
              rw [List.map_eq_nil_iff, List.range_eq_nil] at hmap
              omega
            · show segment.maxLeafDist +
                  children.foldl (fun mx c => max mx c.segment.maxLeafDist) 0 =
                segment.length +
                  maxFold ((children.map fun c => c.segment).map Segment.maxLeafDist)
              rw [hmldlen]
              unfold maxFold
              rw [List.map_map, List.foldl_map]
              rfl
            · intro c hc
              obtain ⟨gr, hgr, rfl⟩ := List.mem_map.mp hc
              exact (hfacts gr hgr).2.2

/-- Totality/termination of the recursive generator: with the program's
draw ranges (`randRange` bounds on lengths and leaf spacings), a parent
satisfying the propagated invariants, a nonnegative budget and fuel
exceeding `budget / minSegmentLength`, the recursion completes.  The budget
shrinks by at least `minSegmentLength` at every recursive call, which is
exactly the fuel bound `mg < minSegmentLength * fuel`. -/
theorem gen_isSome (tp lp : List String) (lfl : ℕ) (hlfl : 112 ≤ lfl) :
    ∀ (fuel : ℕ) (rand : List ℕ → NodeDraw) (parent : Segment) (mg : ℚ) (pd : Vec2)
      (w : ℚ),
      (∀ p, minSegmentLength ≤ (rand p).len) → (∀ p, (rand p).len ≤ maxSegmentLength) →
      (∀ p k, leafSpacingMin ≤ ((rand p).leaf k).spacing) →
      StopsOK parent → LeavesOK parent → 0 ≤ parent.length → parent.length ≤ 1 →
      0 ≤ mg → mg < minSegmentLength * fuel →
      (createSegmentsRecursiveP tp lp rand lfl fuel parent mg pd w).isSome = true := by
  intro fuel
  induction fuel with
  | zero =>
    intro rand parent mg pd w h1 h2 h3 hst hlv hp0 hp1 hmg0 hfuel
    exfalso
    push_cast at hfuel
    norm_num at hfuel
    linarith
  | succ fuel ih =>
    intro rand parent mg pd w h1 h2 h3 hst hlv hp0 hp1 hmg0 hfuel
    unfold createSegmentsRecursiveP
    have hsegS := createSegmentP_isSome tp lp (rand []) lfl parent pd w
      (h1 []) (h2 []) (h3 []) hst hlv hp0 hp1 hlfl
    obtain ⟨segment, hseg⟩ := Option.isSome_iff_exists.mp hsegS
    rw [hseg]
    dsimp only
    obtain ⟨hnn, leaves, hml, hsegeq⟩ := createSegmentP_eq hseg
    have hlen' : segment.length = (rand []).len := by simp [hsegeq]
    have hminlen : minSegmentLength ≤ segment.length := by rw [hlen']; exact h1 []
    by_cases hgt : segment.length > mg
    · rw [if_pos hgt]
      rfl
    · rw [if_neg hgt]
      have hSOK : StopsOK segment := createSegmentP_stopsOK hseg (h1 [])  hst
      have hLOK : LeavesOK segment := createSegmentP_leavesOK hseg (h1 [])
      have hs0 : 0 ≤ segment.length :=
        le_trans (by norm_num [minSegmentLength]) hminlen
      have hs1 : segment.length ≤ 1 := by
        have hmax := h2 []
        rw [hlen']
        norm_num [maxSegmentLength] at hmax ⊢
        linarith
      have hbud0 : 0 ≤ mg - segment.length := by
        rw [not_lt] at hgt
        linarith
      have hbud : mg - segment.length < minSegmentLength * fuel := by
        push_cast at hfuel
        ring_nf at hfuel ⊢
        linarith [hminlen]
      have hchild : ∀ o ∈ (List.range (1 + branchCount (rand []))).map fun i =>
          if i = 0 then
            createSegmentsRecursiveP tp lp (fun p => rand (i :: p)) lfl fuel segment
              (mg - segment.length) pd segment.widthMultiplier
          else
            createSegmentsRecursiveP tp lp (fun p => rand (i :: p)) lfl fuel segment
              ((mg - segment.length) * (2 / 5))
              (Vec2.UP.lerp
                (if parent.end_.x > parent.start.x then Vec2.RIGHT else Vec2.LEFT)
                ((rand []).branchT i)) (rand []).extraWidth, o.isSome = true := by
        intro o ho
        obtain ⟨i, hi, hfi⟩ := List.mem_map.mp ho
        subst hfi
        by_cases hi0 : i = 0
        · rw [if_pos hi0]
          exact ih (fun p => rand (i :: p)) segment (mg - segment.length) pd
            segment.widthMultiplier (fun p => h1 (i :: p)) (fun p => h2 (i :: p))
            (fun p k => h3 (i :: p) k) hSOK hLOK hs0 hs1 hbud0 hbud
        · rw [if_neg hi0]
          have hb0 : 0 ≤ (mg - segment.length) * (2 / 5) := by positivity
          have hb1 : (mg - segment.length) * (2 / 5) < minSegmentLength * fuel := by
            linarith [hbud0, hbud]
          exact ih (fun p => rand (i :: p)) segment ((mg - segment.length) * (2 / 5))
            (Vec2.UP.lerp
              (if parent.end_.x > parent.start.x then Vec2.RIGHT else Vec2.LEFT)
              ((rand []).branchT i)) (rand []).extraWidth
            (fun p => h1 (i :: p)) (fun p => h2 (i :: p)) (fun p k => h3 (i :: p) k)
            hSOK hLOK hs0 hs1 hb0 hb1
      have hallS := allSome_isSome _ hchild
      obtain ⟨children, hall⟩ := Option.isSome_iff_exists.mp hallS
      rw [hall]
      rfl

/-! ## Root stub invariants and a concrete terminating run -/

theorem rootStub_StopsOK : StopsOK rootStub := by
  constructor <;> simp [contOffset, rootStub, colorSize] <;> norm_num

theorem rootStub_LeavesOK : LeavesOK rootStub := by
  intro lf hlf
  simp [rootStub] at hlf

/-- The concrete constant draw source satisfies every range hypothesis of
`gen_isSome`, so the small run used in the witnesses completes. -/
theorem cRand_gen_isSome :
    (createSegmentsRecursive cRand 112 1 rootStub (1/100) Vec2.UP 1).isSome = true := by
  unfold createSegmentsRecursive
  exact gen_isSome treePalette leafPalette 112 (le_refl 112) 1 cRand rootStub (1/100)
    Vec2.UP 1
    (fun p => by norm_num [cRand, cNodeDraw, minSegmentLength])
    (fun p => by norm_num [cRand, cNodeDraw, maxSegmentLength])
    (fun p k => by norm_num [cRand, cNodeDraw, cLeafDraw, leafSpacingMin])
    rootStub_StopsOK rootStub_LeavesOK (by norm_num [rootStub]) (by norm_num [rootStub])
    (by norm_num) (by norm_num [minSegmentLength])

/-! ## Claim C5: branch-path continuity -/

/-- Claim C5: every Segment the generator produces starts at the end point
of the parent it was generated from, for all random draws — directly for
`createSegment`, and throughout the tree (`Linked`) for
`createSegmentsRecursive`. -/
theorem claim_C5 (d : NodeDraw) (lfl : ℕ) (parent : Segment) (pd : Vec2) (w : ℚ)
    (rand : List ℕ → NodeDraw) (fuel : ℕ) (mg : ℚ) :
    (∀ seg, createSegment d lfl parent pd w = some seg → seg.start = parent.end_) ∧
      (∀ res, createSegmentsRecursive rand lfl fuel parent mg pd w = some res →
        res.segment.start = parent.end_ ∧ Linked res.segment) := by
  constructor
  · intro seg h
    unfold createSegment at h
    obtain ⟨_, leaves, _, hseg⟩ := createSegmentP_eq h
    simp [hseg]
  · intro res h
    unfold createSegmentsRecursive at h
    obtain ⟨h1, h2, _⟩ := gen_inv treePalette leafPalette lfl fuel rand parent mg pd w res h
    exact ⟨h1, h2⟩

theorem claim_C5_witness :
    (createSegmentsRecursive cRand 112 1 rootStub (1/100) Vec2.UP 1).elim False
      (fun res => res.segment.start = rootStub.end_ ∧ Linked res.segment) := by
  obtain ⟨res, hres⟩ := Option.isSome_iff_exists.mp cRand_gen_isSome
  rw [hres]
  exact (claim_C5 cNodeDraw 112 rootStub Vec2.UP 1 cRand 1 (1/100)).2 res hres

/-! ## Claim C10: shape of maxLeafDist and the renderer age cap -/

/-- Claim C10: every generated tree satisfies `MldInv` — `maxLeafDist` is
the segment's own length at childless nodes, and own length plus the
children's maximum otherwise; consequently `length ≤ maxLeafDist` holds at
every node, so the renderer's age cap `min age (maxLeafDist /
growthPerSecond)` never prevents a segment's own stroke from reaching full
length: `min 1 baseGrowth = 1` as soon as `age ≥ timeToGrow`. -/
theorem claim_C10 (rand : List ℕ → NodeDraw) (lfl fuel : ℕ) (parent : Segment)
    (mg : ℚ) (pd : Vec2) (w : ℚ) :
    (∀ res, createSegmentsRecursive rand lfl fuel parent mg pd w = some res →
      MldInv res.segment) ∧
      (∀ s, MldInv s → s.length ≤ s.maxLeafDist ∧
        (0 < s.length → ∀ age, timeToGrow s ≤ age → min 1 (baseGrowth s age) = 1)) := by
  constructor
  · intro res h
    unfold createSegmentsRecursive at h
    exact (gen_inv treePalette leafPalette lfl fuel rand parent mg pd w res h).2.2
  · intro s hs
    exact ⟨hs.length_le, fun hpos age hage => growth_saturates hpos hs.length_le hage⟩

theorem claim_C10_witness :
    (createSegmentsRecursive cRand 112 1 rootStub (1/100) Vec2.UP 1).elim False
      (fun res => MldInv res.segment ∧
        res.segment.length ≤ res.segment.maxLeafDist) := by
  obtain ⟨res, hres⟩ := Option.isSome_iff_exists.mp cRand_gen_isSome
  rw [hres]
  have h10 := claim_C10 cRand 112 1 rootStub (1/100) Vec2.UP 1
  have hm := h10.1 res hres
  exact ⟨hm, (h10.2 res.segment hm).1⟩

/-! ## Claim C4: termination of recursive generation -/

/-- Claim C4: recursive generation terminates on every input with a
positive growth budget: every sampled length is at least
`minSegmentLength > 0`, recursion stops once the length exceeds the
remaining budget, and each recursive call's budget is the parent's budget
minus the new length (times `0.4` for extra branches), so the budget drops
by at least `minSegmentLength` per level and fuel with
`mg < minSegmentLength * fuel` (plus leaf-loop fuel `112`) completes the
recursion.  The parent hypotheses are the propagated generator invariants,
satisfied by the root stub `createTree` passes. -/
theorem claim_C4 (rand : List ℕ → NodeDraw) (lfl fuel : ℕ) (parent : Segment)
    (mg : ℚ) (pd : Vec2) (w : ℚ)
    (h1 : ∀ p, minSegmentLength ≤ (rand p).len)
    (h2 : ∀ p, (rand p).len ≤ maxSegmentLength)
    (h3 : ∀ p k, leafSpacingMin ≤ ((rand p).leaf k).spacing)
    (hst : StopsOK parent) (hlv : LeavesOK parent)
    (hp0 : 0 ≤ parent.length) (hp1 : parent.length ≤ 1)
    (hmg : 0 < mg) (hfuel : mg < minSegmentLength * fuel) (hlfl : 112 ≤ lfl) :
    (createSegmentsRecursive rand lfl fuel parent mg pd w).isSome = true := by
  unfold createSegmentsRecursive
  exact gen_isSome treePalette leafPalette lfl hlfl fuel rand parent mg pd w h1 h2 h3
    hst hlv hp0 hp1 hmg.le hfuel

theorem claim_C4_witness :
    (createSegmentsRecursive cRand 112 17 rootStub maxGrowth Vec2.UP 1).isSome = true :=
  claim_C4 cRand 112 17 rootStub maxGrowth Vec2.UP 1
    (fun p => by norm_num [cRand, cNodeDraw, minSegmentLength])
    (fun p => by norm_num [cRand, cNodeDraw, maxSegmentLength])
    (fun p k => by norm_num [cRand, cNodeDraw, cLeafDraw, leafSpacingMin])
    rootStub_StopsOK rootStub_LeavesOK (by norm_num [rootStub]) (by norm_num [rootStub])
    (by norm_num [maxGrowth]) (by norm_num [maxGrowth, minSegmentLength]) (le_refl 112)

/-! ## Claim C8: the frame update only moves xPercent -/

/-- Claim C8: every tree surviving the frame update is an input tree (or
the freshly pushed one) with only `xPercent` changed — moved left by the
scroll shift; `created`, `maxAge`, the entire `root` segment tree, `minX`
and `maxX` are untouched, so a Tree is never restructured after
creation. -/
theorem claim_C8 (w h shift : ℚ) (newTree : Tree) (trees : List Tree) (t' : Tree)
    (ht' : t' ∈ frameTrees w h shift newTree trees) :
    ∃ t, (t ∈ trees ∨ t = newTree) ∧ t'.created = t.created ∧ t'.maxAge = t.maxAge ∧
      t'.root = t.root ∧ t'.minX = t.minX ∧ t'.maxX = t.maxX ∧
      t'.xPercent = t.xPercent - shift := by
  unfold frameTrees at ht'
  have hmem := List.mem_of_mem_filter ht'
  obtain ⟨t, htmem, rfl⟩ := List.mem_map.mp hmem
  refine ⟨t, ?_, rfl, rfl, rfl, rfl, rfl, rfl⟩
  by_cases hs : shouldSpawn w h trees = true
  · rw [if_pos hs] at htmem
    rcases List.mem_append.mp htmem with hmem2 | hmem2
    · exact Or.inl hmem2
    · exact Or.inr (List.mem_singleton.mp hmem2)
  · rw [if_neg hs] at htmem
    exact Or.inl htmem

theorem claim_C8_witness :
    ∃ t, (t ∈ [t8] ∨ t = nt8) ∧ (updatedTree (1/10) t8).created = t.created ∧
      (updatedTree (1/10) t8).maxAge = t.maxAge ∧
      (updatedTree (1/10) t8).root = t.root ∧
      (updatedTree (1/10) t8).minX = t.minX ∧
      (updatedTree (1/10) t8).maxX = t.maxX ∧
      (updatedTree (1/10) t8).xPercent = t.xPercent - 1/10 := by
  apply claim_C8 1 1 (1/10) nt8 [t8] (updatedTree (1/10) t8)
  unfold frameTrees
  rw [if_pos (by norm_num [shouldSpawn, t8, treeSpacingMultiplier])]
  apply List.mem_filter.mpr
  constructor
  · simp
  · norm_num [treeVisible, updatedTree, t8]

/-! ## Claim C3: color stop positions -/

/-- Claim C3: every generated segment's color stops are sorted strictly
ascending with all fractional positions in `[0, 1]`, and the first stop's
position is greater than `0` only when the parent's stop list is nonempty —
exactly the case in which the renderer prepends the parent-color
continuation stop.  The hypotheses are the generator's invariants: sampled
length at least `minSegmentLength`, and `StopsOK parent` (true of the root
stub and propagated by `createSegmentP_stopsOK`). -/
theorem claim_C3 (d : NodeDraw) (lfl : ℕ) (parent : Segment) (pd : Vec2) (w : ℚ)
    (seg : Segment) (h : createSegment d lfl parent pd w = some seg)
    (hlen : minSegmentLength ≤ d.len) (hst : StopsOK parent) :
    List.Pairwise (fun a b => a.1 < b.1) seg.colorStops ∧
      (∀ st ∈ seg.colorStops, 0 ≤ st.1 ∧ st.1 ≤ 1) ∧
      (∀ st, seg.colorStops.head? = some st → 0 < st.1 → parent.colorStops ≠ []) := by
  unfold createSegment at h
  obtain ⟨hnn, leaves, hml, hseg⟩ := createSegmentP_eq h
  have hstops : seg.colorStops = stopsList treePalette d parent := by rw [hseg]; simp
  rw [hstops]
  have hlpos : (0:ℚ) < d.len := lt_of_lt_of_le (by norm_num [minSegmentLength]) hlen
  have hcs : (0:ℚ) < colorSize := by norm_num [colorSize]
  obtain ⟨hoff0, hoffcs⟩ := hst
  refine ⟨?_, ?_, ?_⟩
  · unfold stopsList
    refine List.Pairwise.map _ ?_ (List.pairwise_lt_range _)
    intro a b hab
    show ((a : ℚ) * colorSize + contOffset parent) / d.len <
      ((b : ℚ) * colorSize + contOffset parent) / d.len
    apply (div_lt_div_iff_of_pos_right hlpos).mpr
    have hab' : (a : ℚ) < (b : ℚ) := by exact_mod_cast hab
    nlinarith
  · intro st hst'
    unfold stopsList at hst'
    obtain ⟨i, hi, rfl⟩ := List.mem_map.mp hst'
    rw [List.mem_range] at hi
    constructor
    · apply div_nonneg _ hlpos.le
      have hterm : (0:ℚ) ≤ (i : ℚ) * colorSize := by positivity
      linarith
    · rw [div_le_one hlpos]
      have hiz : (i : ℤ) < stopCountZ d parent := by
        rw [← Int.toNat_of_nonneg hnn]
        exact_mod_cast hi
      have hq : (i : ℚ) < (d.len - contOffset parent) / colorSize := by
        unfold stopCountZ at hiz
        exact_mod_cast Int.lt_ceil.mp hiz
      rw [lt_div_iff₀ hcs] at hq
      linarith
  · intro st hhead hpos hnil
    have hco : contOffset parent = 0 := by
      unfold contOffset
      rw [hnil]
      rfl
    unfold stopsList at hhead
    cases hn : (stopCountZ d parent).toNat with
    | zero =>
      rw [hn] at hhead
      simp at hhead
    | succ m =>
      rw [hn] at hhead
      rw [List.range_succ_eq_map] at hhead
      simp only [List.map_cons, List.head?_cons] at hhead
      injection hhead with hhead
      rw [← hhead, hco] at hpos
      norm_num at hpos

theorem claim_C3_witness :
    (createSegment cNodeDraw 112 rootStub Vec2.UP 1).elim False
      (fun seg => List.Pairwise (fun a b => a.1 < b.1) seg.colorStops ∧
        (∀ st ∈ seg.colorStops, 0 ≤ st.1 ∧ st.1 ≤ 1) ∧
        (∀ st, seg.colorStops.head? = some st → 0 < st.1 →
          rootStub.colorStops ≠ [])) := by
  have hsome : (createSegment cNodeDraw 112 rootStub Vec2.UP 1).isSome = true := by
    unfold createSegment
    exact createSegmentP_isSome treePalette leafPalette cNodeDraw 112 rootStub Vec2.UP 1
      (by norm_num [cNodeDraw, minSegmentLength]) (by norm_num [cNodeDraw, maxSegmentLength])
      (fun k => by norm_num [cNodeDraw, cLeafDraw, leafSpacingMin])
      rootStub_StopsOK rootStub_LeavesOK (by norm_num [rootStub]) (by norm_num [rootStub])
      (le_refl 112)
  obtain ⟨seg, hseg⟩ := Option.isSome_iff_exists.mp hsome
  rw [hseg]
  exact claim_C3 cNodeDraw 112 rootStub Vec2.UP 1 seg hseg
    (by norm_num [cNodeDraw, minSegmentLength]) rootStub_StopsOK

/-! ## Claim C9: totality and fallback defaults -/

/-- Claim C9: generation and the modelled rendering arithmetic raise no
failure on any reachable input: `randChoice` of an empty palette is `none`
and the `?? default` fallbacks then color every stop `"white"` and every
leaf `"brown"`; an empty or absent color-stop list makes the renderer's
gradient stop list empty via the null checks instead of failing; and under
the generator invariants the `new Array` stop count is never negative, so
the one modelled error branch is unreachable (totality itself is
`claim_C4`'s `isSome`). -/
theorem claim_C9 (i : ℕ) (d : NodeDraw) (lfl : ℕ) (parent : Segment) (pd : Vec2)
    (w : ℚ) :
    randChoice [] i = none ∧
      ((createSegmentP [] [] d lfl parent pd w).elim True fun seg =>
        (∀ st ∈ seg.colorStops, st.2 = "white") ∧
          ∀ lf ∈ seg.leaves, lf.color = "brown") ∧
      (∀ (par : Option Segment) (s : Segment), s.colorStops = [] →
        gradientStops par s = []) ∧
      (StopsOK parent → minSegmentLength ≤ d.len → 0 ≤ stopCountZ d parent) := by
  refine ⟨?_, ?_, ?_, ?_⟩
  · simp [randChoice]
  · cases hseg : createSegmentP [] [] d lfl parent pd w with
    | none => exact trivial
    | some seg =>
      obtain ⟨hnn, leaves, hml, hsegeq⟩ := createSegmentP_eq hseg
      constructor
      · intro st hst
        rw [hsegeq] at hst
        simp only [Segment.colorStops] at hst
        unfold stopsList at hst
        obtain ⟨j, hj, rfl⟩ := List.mem_map.mp hst
        simp [randChoice]
      · intro lf hlf
        rw [hsegeq] at hlf
        simp only [Segment.leaves] at hlf
        exact makeLeavesP_brown lfl (leafOff0 parent) 0 leaves hml lf hlf
  · intro par s hs
    unfold gradientStops
    rw [hs]
    cases hpc : par.bind fun p => (p.colorStops.getLast?).map Prod.snd with
    | none => simp [gradientPre, dupStops]
    | some c => simp [gradientPre, dupStops]
  · intro hst hlen
    unfold stopCountZ
    apply Int.ceil_nonneg
    apply div_nonneg _ (by norm_num [colorSize])
    obtain ⟨h1, h2⟩ := hst
    have : (0:ℚ) < d.len := lt_of_lt_of_le (by norm_num [minSegmentLength]) hlen
    norm_num [colorSize, minSegmentLength] at h2 hlen ⊢
    linarith

theorem claim_C9_witness :
    randChoice [] 0 = none ∧ gradientStops none rootStub = [] ∧
      0 ≤ stopCountZ cNodeDraw rootStub := by
  have h := claim_C9 0 cNodeDraw 112 rootStub Vec2.UP 1
  exact ⟨h.1, h.2.2.1 none rootStub rfl, h.2.2.2 rootStub_StopsOK
    (by norm_num [cNodeDraw, minSegmentLength])⟩

/-! ## Claim C7: branching structure below the budget -/

/-- Claim C7: when the sampled length does not exceed the remaining budget,
generation spawns `1 + branchCount` children, between `1` and `3`
inclusive — `branchCount` adds one per slot `i < maxBranches = 2` whose
independent draw falls below `branchChance`.  Child `0` is the continuation,
generated from the new segment with the full remaining budget
`mg - length`, the same preferred direction `pd` and the same width
multiplier; every child `i ≥ 1` is an extra branch generated with `0.4`
times the remaining budget, the divergent direction
`UP.lerp(parentDir, branchT i)` and the reduced width draw. -/
theorem claim_C7 (rand : List ℕ → NodeDraw) (lfl fuel : ℕ) (parent : Segment)
    (mg : ℚ) (pd : Vec2) (w : ℚ) (res : GenResult)
    (h : createSegmentsRecursive rand lfl (fuel + 1) parent mg pd w = some res)
    (hb : ¬ (rand []).len > mg) :
    ∃ seg cs,
      createSegmentP treePalette leafPalette (rand []) lfl parent pd w = some seg ∧
      res.segment.children = some cs ∧
      cs.length = 1 + branchCount (rand []) ∧ 1 ≤ cs.length ∧ cs.length ≤ 3 ∧
      (∀ c, cs.head? = some c →
        ∃ r, createSegmentsRecursiveP treePalette leafPalette
            (fun p => rand (0 :: p)) lfl fuel seg (mg - seg.length) pd
            seg.widthMultiplier = some r ∧ c = r.segment) ∧
      (∀ i, ∀ hi : i < cs.length, 0 < i →
        ∃ r, createSegmentsRecursiveP treePalette leafPalette
            (fun p => rand (i :: p)) lfl fuel seg ((mg - seg.length) * (2 / 5))
            (Vec2.UP.lerp
              (if parent.end_.x > parent.start.x then Vec2.RIGHT else Vec2.LEFT)
              ((rand []).branchT i)) (rand []).extraWidth = some r ∧
          cs[i]? = some r.segment) := by
  unfold createSegmentsRecursive at h
  unfold createSegmentsRecursiveP at h
  cases hseg : createSegmentP treePalette leafPalette (rand []) lfl parent pd w with
  | none => rw [hseg] at h; cases h
  | some segment =>
    rw [hseg] at h
    dsimp only at h
    obtain ⟨hnn, leaves, hml, hsegeq⟩ := createSegmentP_eq hseg
    have hlen' : segment.length = (rand []).len := by simp [hsegeq]
    rw [if_neg (by rw [hlen']; exact hb)] at h
    cases hall : allSome ((List.range (1 + branchCount (rand []))).map fun i =>
      if i = 0 then
        createSegmentsRecursiveP treePalette leafPalette (fun p => rand (i :: p)) lfl
          fuel segment (mg - segment.length) pd segment.widthMultiplier
      else
        createSegmentsRecursiveP treePalette leafPalette (fun p => rand (i :: p)) lfl
          fuel segment ((mg - segment.length) * (2 / 5))
          (Vec2.UP.lerp
            (if parent.end_.x > parent.start.x then Vec2.RIGHT else Vec2.LEFT)
            ((rand []).branchT i)) (rand []).extraWidth) with
    | none => rw [hall] at h; cases h
    | some children =>
      rw [hall] at h
      dsimp only at h
      injection h with h
      subst h
      have hmap := allSome_eq_map_some hall
      have hnum : children.length = 1 + branchCount (rand []) := by
        have hlenmap := congrArg List.length hmap
        simp only [List.length_map, List.length_range] at hlenmap
        exact hlenmap.symm
      have hidx : ∀ i, ∀ hi : i < children.length,
          (if i = 0 then
            createSegmentsRecursiveP treePalette leafPalette (fun p => rand (i :: p)) lfl
              fuel segment (mg - segment.length) pd segment.widthMultiplier
          else
            createSegmentsRecursiveP treePalette leafPalette (fun p => rand (i :: p)) lfl
              fuel segment ((mg - segment.length) * (2 / 5))
              (Vec2.UP.lerp
                (if parent.end_.x > parent.start.x then Vec2.RIGHT else Vec2.LEFT)
                ((rand []).branchT i)) (rand []).extraWidth) = some children[i] := by
        intro i hi
        have hiN : i < 1 + branchCount (rand []) := hnum ▸ hi
        have h1 : ((List.range (1 + branchCount (rand []))).map fun i =>
            if i = 0 then
              createSegmentsRecursiveP treePalette leafPalette (fun p => rand (i :: p))
                lfl fuel segment (mg - segment.length) pd segment.widthMultiplier
            else
              createSegmentsRecursiveP treePalette leafPalette (fun p => rand (i :: p))
                lfl fuel segment ((mg - segment.length) * (2 / 5))
                (Vec2.UP.lerp
                  (if parent.end_.x > parent.start.x then Vec2.RIGHT else Vec2.LEFT)
                  ((rand []).branchT i)) (rand []).extraWidth)[i]? =
            some (if i = 0 then
              createSegmentsRecursiveP treePalette leafPalette (fun p => rand (i :: p))
                lfl fuel segment (mg - segment.length) pd segment.widthMultiplier
            else
              createSegmentsRecursiveP treePalette leafPalette (fun p => rand (i :: p))
                lfl fuel segment ((mg - segment.length) * (2 / 5))
                (Vec2.UP.lerp
                  (if parent.end_.x > parent.start.x then Vec2.RIGHT else Vec2.LEFT)
                  ((rand []).branchT i)) (rand []).extraWidth) := by
          rw [List.getElem?_map, List.getElem?_range hiN]
          rfl
        rw [hmap, List.getElem?_map, List.getElem?_eq_getElem hi] at h1
        simp only [Option.map_some'] at h1
        injection h1 with h1
        exact h1.symm
      refine ⟨segment, children.map (fun c => c.segment), rfl, by simp, ?_, ?_, ?_, ?_, ?_⟩
      · simp [hnum]
      · simp only [List.length_map]
        omega
      · simp only [List.length_map, hnum]
        have hbc : branchCount (rand []) ≤ 2 := by
          unfold branchCount
          calc List.countP (fun i => decide ((rand []).branchSrc i < branchChance))
                (List.range maxBranches)
              ≤ (List.range maxBranches).length := List.countP_le_length _
            _ = 2 := by simp [maxBranches]
        omega
      · intro c hc
        have h0 : 0 < children.length := by omega
        rw [List.head?_eq_getElem?, List.getElem?_map, List.getElem?_eq_getElem h0] at hc
        simp only [Option.map_some'] at hc
        injection hc with hc
        refine ⟨children[0], ?_, hc.symm⟩
        have hx := hidx 0 h0
        rw [if_pos rfl] at hx
        exact hx
      · intro i hi hipos
        have hi' : i < children.length := by simpa using hi
        refine ⟨children[i], ?_, ?_⟩
        · have hx := hidx i hi'
          rw [if_neg (by omega)] at hx
          exact hx
        · rw [List.getElem?_map, List.getElem?_eq_getElem hi']
          rfl

/-- The draw source with one extra-branch slot firing also satisfies the
termination hypotheses at budget `3/50` and fuel `2`. -/
theorem cRand2_gen_isSome :
    (createSegmentsRecursive cRand2 112 2 rootStub (3/50) Vec2.UP 1).isSome = true := by
  unfold createSegmentsRecursive
  exact gen_isSome treePalette leafPalette 112 (le_refl 112) 2 cRand2 rootStub (3/50)
    Vec2.UP 1
    (fun p => by norm_num [cRand2, cNodeDraw2, minSegmentLength])
    (fun p => by norm_num [cRand2, cNodeDraw2, maxSegmentLength])
    (fun p k => by norm_num [cRand2, cNodeDraw2, cLeafDraw, leafSpacingMin])
    rootStub_StopsOK rootStub_LeavesOK (by norm_num [rootStub]) (by norm_num [rootStub])
    (by norm_num) (by norm_num [minSegmentLength])

theorem claim_C7_witness :
    (createSegmentsRecursive cRand2 112 2 rootStub (3/50) Vec2.UP 1).elim False
      (fun res => ∃ seg cs,
        createSegmentP treePalette leafPalette (cRand2 []) 112 rootStub Vec2.UP 1 =
          some seg ∧
        res.segment.children = some cs ∧
        cs.length = 1 + branchCount (cRand2 []) ∧ 1 ≤ cs.length ∧ cs.length ≤ 3 ∧
        (∀ c, cs.head? = some c →
          ∃ r, createSegmentsRecursiveP treePalette leafPalette
              (fun p => cRand2 (0 :: p)) 112 1 seg (3/50 - seg.length) Vec2.UP
              seg.widthMultiplier = some r ∧ c = r.segment) ∧
        (∀ i, ∀ hi : i < cs.length, 0 < i →
          ∃ r, createSegmentsRecursiveP treePalette leafPalette
              (fun p => cRand2 (i :: p)) 112 1 seg ((3/50 - seg.length) * (2 / 5))
              (Vec2.UP.lerp
                (if rootStub.end_.x > rootStub.start.x then Vec2.RIGHT else Vec2.LEFT)
                ((cRand2 []).branchT i)) (cRand2 []).extraWidth = some r ∧
            cs[i]? = some r.segment)) := by
  obtain ⟨res, hres⟩ := Option.isSome_iff_exists.mp cRand2_gen_isSome
  rw [hres]
  exact claim_C7 cRand2 112 1 rootStub (3/50) Vec2.UP 1 res hres
    (by norm_num [cRand2, cNodeDraw2])

end Painting
